import Mathlib

/-!
Verification of the jobs_done10 matrix-expansion and generator-configuration
engine (jobs_done_job.py) against its natural-language specification.

The YAML document is embedded as an association-list tree: the custom loader
of the source (class _JobsDoneYamlLoader, which forces every scalar to an
ascii string) produces only string scalars, sequences and mappings, so a
parsed document is a finite tree over those three constructors. YAML mappings
are embedded as association lists carrying the entries in the order the
program enumerates them. The source is Python 2 and its mappings are plain
CPython 2 dicts, which enumerate their keys in hash-table order, not in the
order the document declares them; where a claim depends on that distinction
the CPython 2 string hash and the slot order of a small dict are modelled
explicitly (pyHash2, dictOrder8 below).
-/

/-- A parsed YAML value as produced by JobsDoneJob._JobsDoneYamlLoader:
every scalar is an ascii string, containers are sequences and mappings. -/
inductive Value where
  | s (v : String)
  | l (vs : List Value)
  | m (kvs : List (String × Value))
deriving Repr

/-- The Python runtime type of a loaded value: str, list or dict. -/
inductive VKind where
  | str
  | list
  | dict
deriving Repr, DecidableEq

/-- type(option_value) for a loaded value. -/
def Value.kind : Value → VKind
  | .s _ => .str
  | .l _ => .list
  | .m _ => .dict

/-- A parsed top-level document: the YAML mapping in document order. -/
abbrev Doc := List (String × Value)

/-- Repository information passed to CreateFromYAML: plain immutable value. -/
structure Repository where
  url : String
  name : String
  branch : String

/-- JobsDoneJob.GENERATOR_OPTIONS: options forwarded to generators, with
their expected Python types, in source declaration order. -/
def GENERATOR_OPTIONS : List (String × VKind) :=
  [("boosttest_patterns", .list),
   ("build_batch_commands", .list),
   ("build_shell_commands", .list),
   ("description_regex", .str),
   ("jsunit_patterns", .list),
   ("junit_patterns", .list),
   ("notify_stash", .dict),
   ("parameters", .list)]

/-- JobsDoneJob.PARSEABLE_OPTIONS: all parsed options = GENERATOR_OPTIONS
plus the two control options branch_patterns and matrix. -/
def PARSEABLE_OPTIONS : List (String × VKind) :=
  GENERATOR_OPTIONS ++ [("branch_patterns", .list), ("matrix", .dict)]

/-- Splits a character list on a separator character, mirroring the Python
str.split(sep) semantics for a one-character separator: the result is always
nonempty, and splitting the empty string yields one empty group. -/
def splitOnChar (sep : Char) : List Char → List (List Char)
  | [] => [[]]
  | c :: rest =>
    match splitOnChar sep rest with
    | [] => [[]]
    | g :: gs => if c = sep then [] :: g :: gs else (c :: g) :: gs

/-- Python str.split(sep) for a one-character separator. -/
def pySplit (sep : Char) (s : String) : List String :=
  (splitOnChar sep s.data).map String.mk

/-- option_name.rsplit(chr(58), 1)[-1]: the text after the last colon, used
to strip condition-token chains before the schema lookup (line 164). -/
def stripConditions (k : String) : String :=
  (pySplit ':' k).getLastD k

/-- The error taxonomy of CreateFromYAML. The first two constructors mirror
the exception classes of the source; the remaining ones stand for the Python
runtime exceptions the source can raise and never catches. -/
inductive JdError where
  | unknownOption (name : String)
  | typeMismatch (name : String) (obtained expected : VKind)
  | branchPatternTypeError
  | matrixFormatError
  | formatKeyError
  | conditionError
  | generatorAttributeError (name : String)
deriving Repr, DecidableEq

/-- Checks one top-level document entry against the schema (lines 163-171):
the key is stripped of condition tokens, must name a parseable option, and
the runtime type of the value must equal the declared type. -/
def validateEntry (k : String) (v : Value) : Option JdError :=
  let name := stripConditions k
  match PARSEABLE_OPTIONS.lookup name with
  | none => some (JdError.unknownOption name)
  | some expected =>
    if v.kind = expected then none else some (JdError.typeMismatch name v.kind expected)

/-- Walks the document in order, returning the first schema error (the
validation loop of lines 163-171). -/
def validateDoc : Doc → Option JdError
  | [] => none
  | (k, v) :: rest =>
    match validateEntry k v with
    | some e => some e
    | none => validateDoc rest

/-- One combination of the matrix values (inner class MatrixRow of
CreateMatrixRows). The field dict maps each variable name to the list of
comma-separated sub-values retained for that slot. -/
structure MatrixRow where
  dict : List (String × List String)
deriving Repr, DecidableEq

/-- MatrixRow.__init__: zips the variable names with the value tuple, each
value string split on commas into its sub-values (lines 241-253). -/
def MatrixRow.init (names : List String) (values : List String) : MatrixRow :=
  ⟨names.zip (values.map (pySplit ','))⟩

/-- MatrixRow.AsDict: the effective bindings of the row; only the first
sub-value of each entry is considered (lines 267-273). -/
def MatrixRow.AsDict (r : MatrixRow) : List (String × String) :=
  r.dict.map (fun p => (p.1, p.2.headD ""))

/-- condition.split(chr(45)) unpacked into exactly a name and a value
(line 287); any other number of parts raises in Python, embedded as none. -/
def condSplit (c : String) : Option (String × String) :=
  match pySplit '-' c with
  | [a, b] => some (a, b)
  | _ => none

/-- The body of MatrixRow.Match for a single condition (lines 286-288):
the condition value must appear among the sub-values retained for the
condition name; a malformed condition or an unbound name raises (none). -/
def MatrixRow.MatchCond (r : MatrixRow) (c : String) : Option Bool :=
  match condSplit c with
  | none => none
  | some (n, v) =>
    match r.dict.lookup n with
    | none => none
    | some vs => some (vs.contains v)

/-- The list comprehension of line 290: _Match evaluated on every
condition, a raising condition aborting the whole list. -/
def condResults (r : MatrixRow) : List String → Option (List Bool)
  | [] => some []
  | c :: rest =>
    match r.MatchCond c, condResults r rest with
    | some b, some bs => some (b :: bs)
    | _, _ => none

/-- MatrixRow.Match (lines 275-290): all conditions must match; every
condition is evaluated, so a raising condition aborts the whole check. -/
def MatrixRow.Match (r : MatrixRow) (conds : List String) : Option Bool :=
  match condResults r conds with
  | none => none
  | some bs => some (bs.all id)

/-- itertools.product over the value lists of the matrix: the rightmost
list varies fastest, an empty input yields the single empty combination. -/
def itProduct : List (List String) → List (List String)
  | [] => [[]]
  | vs :: rest => vs.flatMap (fun x => (itProduct rest).map (fun t => x :: t))

/-- JobsDoneJob.CreateMatrixRows (lines 292-297): one MatrixRow per element
of the Cartesian product of the matrix value lists. The argument list
carries the matrix entries in the order the dict enumerates them
(matrix_dict.keys and matrix_dict.values at lines 295-296): for the Python
2 dict of the source that is its hash-table order, which need not be the
order the document declares the variables in. -/
def CreateMatrixRows (matrix_dict : List (String × List String)) : List MatrixRow :=
  (itProduct (matrix_dict.map (fun p => p.2))).map
    (fun v => MatrixRow.init (matrix_dict.map (fun p => p.1)) v)

/-- Python re.match(pattern, text) on the regex fragment the source relies
on (literal characters, the dot wildcard, and the postfix star): true when
the pattern matches some initial segment of the text. re.match anchors at
the start of the string only, so an exhausted pattern accepts. -/
def reMatch (p t : List Char) : Bool :=
  match p, t with
  | [], _ => true
  | c :: '*' :: ps, t =>
    reMatch ps t ||
      (match t with
       | [] => false
       | c0 :: ts => (c = '.' || c = c0) && reMatch (c :: '*' :: ps) ts)
  | _ :: _, [] => false
  | c :: ps, c0 :: ts => (c = '.' || c = c0) && reMatch ps ts
termination_by (t.length, p.length)

/-- The characters of a replacement field: the prefix of the text before
the closing brace. -/
def fieldName : List Char → List Char
  | [] => []
  | c :: rest => if c = '}' then [] else c :: fieldName rest

/-- The remaining text from the closing brace on (empty when the field is
never closed). -/
def afterField : List Char → List Char
  | [] => []
  | c :: rest => if c = '}' then c :: rest else afterField rest

/-- Association-list lookup keyed by the character list of the key. -/
def lookupChars (ctx : List (String × String)) (f : List Char) : Option String :=
  match ctx with
  | [] => none
  | (k, v) :: rest => if k.data = f then some v else lookupChars rest f

/-- Python str.format(**context) restricted to named replacement fields, as
used on the serialized document (line 202): a brace-delimited field is
replaced by the context value of that name, doubled braces denote literal
braces, an unknown field name or an unbalanced brace raises (none). -/
def pyFormatAux (ctx : List (String × String)) (s : List Char) : Option (List Char) :=
  match s with
  | [] => some []
  | c :: rest =>
    if c = '{' then
      if rest.head? = some '{' then
        (pyFormatAux ctx rest.tail).map (fun r => '{' :: r)
      else
        match hdrop : afterField rest with
        | '}' :: rest2 =>
          match lookupChars ctx (fieldName rest) with
          | some v => (pyFormatAux ctx rest2).map (fun r => v.data ++ r)
          | none => none
        | _ => none
    else if c = '}' then
      if rest.head? = some '}' then
        (pyFormatAux ctx rest.tail).map (fun r => '}' :: r)
      else none
    else
      (pyFormatAux ctx rest).map (fun r => c :: r)
termination_by s.length
decreasing_by
  · have h1 : rest.tail.length ≤ rest.length := by
      cases rest <;> simp
    simp; omega
  · have h1 : ∀ l : List Char, (afterField l).length ≤ l.length := by
      intro l
      induction l with
      | nil => simp [afterField]
      | cons c0 rest0 ih =>
        simp only [afterField]
        split
        · simp
        · simpa using Nat.le_succ_of_le ih
    have h2 := h1 rest
    rw [hdrop] at h2
    simp at h2 ⊢
    omega
  · have h1 : rest.tail.length ≤ rest.length := by
      cases rest <;> simp
    simp; omega
  · simp

/-- str.format on a whole string. -/
def pyFormat (ctx : List (String × String)) (s : String) : Option String :=
  (pyFormatAux ctx s.data).map String.mk

mutual
/-- Template resolution of one value (lines 194-203 of the source: the
document is serialized, formatted with str.format and reparsed; on the
value tree this replaces every string scalar, including mapping keys, by
its formatted form, and any formatting failure aborts the document). -/
def formatValue (ctx : List (String × String)) : Value → Option Value
  | .s v => (pyFormat ctx v).map Value.s
  | .l vs => (formatValueList ctx vs).map Value.l
  | .m kvs => (formatValueKVs ctx kvs).map Value.m

/-- formatValue over the elements of a sequence. -/
def formatValueList (ctx : List (String × String)) : List Value → Option (List Value)
  | [] => some []
  | v :: rest =>
    match formatValue ctx v, formatValueList ctx rest with
    | some v2, some rest2 => some (v2 :: rest2)
    | _, _ => none

/-- formatValue over the entries of a mapping: keys are part of the
serialized text, so they are formatted too. -/
def formatValueKVs (ctx : List (String × String)) :
    List (String × Value) → Option (List (String × Value))
  | [] => some []
  | (k, v) :: rest =>
    match pyFormat ctx k, formatValue ctx v, formatValueKVs ctx rest with
    | some k2, some v2, some rest2 => some ((k2, v2) :: rest2)
    | _, _, _ => none
end

/-- The substitution context of lines 196-200: the two special replacement
names branch and name from the repository, updated with the effective
bindings of the current matrix row (which therefore shadow the special
names on collision, as dict.update does). -/
def formatContext (repository : Repository) (row : MatrixRow) : List (String × String) :=
  row.AsDict ++ [("branch", repository.branch), ("name", repository.name)]

/-- A JobsDoneJob instance: after __init__ every parseable option is None;
CreateFromYAML then sets the repository, the matrix_row snapshot, and the
applying options by name (setattr of line 216). -/
structure JobsDoneJob where
  repository : Option Repository
  matrix_row : Option (List (String × String))
  options : String → Option Value

/-- A freshly constructed JobsDoneJob (lines 94-105). -/
def emptyJob : JobsDoneJob :=
  { repository := none, matrix_row := none, options := fun _ => none }

/-- setattr(jobs_done_job, option_name, option_value). -/
def applyOption (job : JobsDoneJob) (name : String) (v : Value) : JobsDoneJob :=
  { job with options := fun n => if n = name then some v else job.options n }

/-- The option-application loop of lines 205-216: for each entry of the
formatted document, in the order the argument list carries them, a
colon-carrying key is split into condition tokens and the real option name
and applied only when the row matches all conditions; a condition failure
that raises aborts the whole call. The entry order is the enumeration
order of jd_formatted_data.iteritems at line 205: for the Python 2 dict of
the source that is its hash-table order, not the document order. -/
def applyFormattedOptions (row : MatrixRow) :
    List (String × Value) → JobsDoneJob → Except JdError JobsDoneJob
  | [], job => .ok job
  | (k, v) :: rest, job =>
    if (pySplit ':' k).length > 1 then
      match row.Match ((pySplit ':' k).dropLast) with
      | none => .error JdError.conditionError
      | some true => applyFormattedOptions row rest (applyOption job ((pySplit ':' k).getLastD k) v)
      | some false => applyFormattedOptions row rest job
    else
      applyFormattedOptions row rest (applyOption job k v)

/-- Builds the job of one matrix row (the loop body of lines 182-216):
repository and the effective-binding snapshot are attached; an empty
document yields the job as is, otherwise the document is template-resolved
for the row and its options applied, the option list carrying the entries
of the reloaded mapping in its dict enumeration order. -/
def buildJob (jd_data : Doc) (repository : Repository) (row : MatrixRow) :
    Except JdError JobsDoneJob :=
  let job0 : JobsDoneJob :=
    { repository := some repository, matrix_row := some row.AsDict,
      options := fun _ => none }
  if jd_data.isEmpty then .ok job0
  else
    match formatValueKVs (formatContext repository row) jd_data with
    | none => .error JdError.formatKeyError
    | some formatted => applyFormattedOptions row formatted job0

/-- jd_data.get(quote branch_patterns unquote, [dot-star]) at line 175.
The non-list arms are unreachable: validation has already checked the
shape of a present branch_patterns entry. -/
def getBranchPatterns (jd_data : Doc) : List Value :=
  match jd_data.lookup "branch_patterns" with
  | some (.l vs) => vs
  | some _ => []
  | none => [Value.s ".*"]

/-- The list comprehension of line 176: re.match of every pattern against
the repository branch. Every element is evaluated, and a non-string
pattern raises (error), even when an earlier pattern already matched. -/
def patternMatches (branch : String) : List Value → Except JdError (List Bool)
  | [] => .ok []
  | Value.s pat :: rest => (patternMatches branch rest).map (reMatch pat.data branch.data :: ·)
  | _ :: _ => .error JdError.branchPatternTypeError

/-- Iterating a loaded value as itertools.product does with the values of
the matrix mapping: a sequence yields its elements, which must be strings
for the later split on commas (anything else raises); mirroring Python
iteration, a string yields its one-character substrings and a mapping
yields its keys. -/
def iterStrings : Value → Option (List String)
  | .s x => some (x.data.map (fun c => String.mk [c]))
  | .l vs => vs.mapM (fun v => match v with | .s y => some y | _ => none)
  | .m kvs => some (kvs.map (fun p => p.1))

/-- The matrix mapping as the name/value-list pairs consumed by
CreateMatrixRows. The non-mapping arm is unreachable: validation has
already checked the shape of a present matrix entry. -/
def matrixOfValue : Value → Option (List (String × List String))
  | .m kvs => kvs.mapM (fun p => (iterStrings p.2).map (fun vs => (p.1, vs)))
  | _ => none

/-- Lines 179-218: expand the matrix of the document (default empty) and
build one job per row. -/
def assembleJobs (jd_data : Doc) (repository : Repository) :
    Except JdError (List JobsDoneJob) :=
  match matrixOfValue ((jd_data.lookup "matrix").getD (Value.m [])) with
  | none => .error JdError.matrixFormatError
  | some matrix_dict => (CreateMatrixRows matrix_dict).mapM (buildJob jd_data repository)

/-- The lexicographic Cartesian-product order induced by the order of the
given value lists: the combination at position i chooses, for the first
list, the value at index i divided by the number of combinations of the
remaining lists, and recurses with the remainder. Note the input order is
the enumeration order of the matrix mapping, which for the Python 2 dict
of the source is not the declared variable order. -/
def lexCartesianNth : List (List String) → Nat → List String
  | [], _ => []
  | v :: rest, i =>
    v.getD (i / (rest.map List.length).prod) "" ::
      lexCartesianNth rest (i % (rest.map List.length).prod)

/-- JobsDoneJob.CreateFromYAML (lines 108-218). The outer Option is the
yaml_contents argument (none models the Python None input of line 156);
the inner Option is the result of yaml.load, whose None result for an
empty document is defaulted to the empty mapping at line 160. -/
def CreateFromYAML (yaml_contents : Option (Option Doc)) (repository : Repository) :
    Except JdError (List JobsDoneJob) :=
  match yaml_contents with
  | none => .ok []
  | some parsed =>
    let jd_data : Doc := parsed.getD []
    match validateDoc jd_data with
    | some e => .error e
    | none =>
      match patternMatches repository.branch (getBranchPatterns jd_data) with
      | .error e => .error e
      | .ok ms =>
        if ms.any id then assembleJobs jd_data repository
        else .ok []

/-- Follows the wording of the spec: the real option name a (possibly
conditioned) document key resolves to, the last colon-separated segment. -/
def appliedName (k : String) : String :=
  (pySplit ':' k).getLastD k

/-- Follows the wording of the spec: whether a document key applies to a
row. A key without condition tokens always applies; otherwise every
condition token must match the row. -/
def keyApplies (row : MatrixRow) (k : String) : Option Bool :=
  if (pySplit ':' k).length > 1 then row.Match ((pySplit ':' k).dropLast)
  else some true

/-- sorted(JobsDoneJob.PARSEABLE_OPTIONS): the option names in sorted
order, as enumerated by the UnknownJobsDoneFileOption message (line 334). -/
def availableOptionNames : List String :=
  (PARSEABLE_OPTIONS.map (fun p => p.1)).insertionSort (fun a b => a ≤ b)

/-- The message of UnknownJobsDoneFileOption (lines 329-335). -/
def unknownOptionMessage (name : String) : String :=
  "Received unknown option \"" ++ name ++ "\".\n\nAvailable options are:\n" ++
    String.intercalate "\n" (availableOptionNames.map (fun o => "- " ++ o))

/-- Modelled from the spec: an invocation recorded against a generator.
The Generator Configurator (JobGeneratorConfigurator.Configure of
jobs_done10/job_generator.py) is not among the given sources; only its
test pytest_job_generator.py is. Following spec section 4.7, a Configure
call is modelled by the sequence of method invocations it performs on the
generator. -/
inductive GenCall where
  | reset
  | setOption (method : String) (value : Value)

/-- Modelled from the spec: the capability surface of a generator, the set
of method names it exposes (IJobGenerator implementations such as
MyGenerator of the test expose Reset, GenerateJobs and one setter per
supported option). -/
structure Generator where
  methods : List String

/-- Modelled from the spec: the fixed name-derivation rule from an option
name to the capability method the generator must expose, as exercised by
the test (build_batch_command becomes SetBuildBatchCommand). -/
def deriveMethodName (option : String) : String :=
  "Set" ++ String.join ((pySplit '_' option).map String.capitalize)

/-- Modelled from the spec: option forwarding of section 4.7. Every
forwardable option whose field is non-empty is forwarded through its
derived capability method; a missing method fails the call with a hard
error and stops forwarding. -/
def forwardOptions (gen : Generator) (job : JobsDoneJob) :
    List (String × VKind) → List GenCall × Option JdError
  | [] => ([], none)
  | (opt, _) :: rest =>
    match job.options opt with
    | none => forwardOptions gen job rest
    | some v =>
      if gen.methods.contains (deriveMethodName opt) then
        let r := forwardOptions gen job rest
        (GenCall.setOption (deriveMethodName opt) v :: r.1, r.2)
      else ([], some (JdError.generatorAttributeError opt))

/-- Modelled from the spec: JobGeneratorConfigurator.Configure. The
generator reset method is invoked, establishing a known-clean state, and
every non-empty forwardable option is forwarded. -/
def Configure (gen : Generator) (job : JobsDoneJob) : List GenCall × Option JdError :=
  let r := forwardOptions gen job GENERATOR_OPTIONS
  (GenCall.reset :: r.1, r.2)

/-- Counts the reset invocations of a recorded call sequence. -/
def countResets : List GenCall → Nat
  | [] => 0
  | GenCall.reset :: rest => countResets rest + 1
  | GenCall.setOption _ _ :: rest => countResets rest

/-- The string hash of the CPython 2 runtime executing the source (64-bit
build, hash randomization off, its default): starting from the first
character code shifted left by seven, every character folds in as multiply
by 1000003 then exclusive-or, all modulo 2 to the 64, and the length is
folded in at the end; the all-ones value is replaced since the C level
reserves minus one as an error mark. This hash decides the slot each key
occupies in the dicts the source iterates. -/
def pyHash2 (s : String) : Nat :=
  match s.data with
  | [] => 0
  | c0 :: _ =>
    let x := s.data.foldl (fun x c => ((1000003 * x) % (2 ^ 64)) ^^^ c.toNat)
      ((c0.toNat <<< 7) % (2 ^ 64))
    let x := x ^^^ s.data.length
    if x = 2 ^ 64 - 1 then 2 ^ 64 - 2 else x

/-- The iteration order of a freshly built CPython 2 dict over the given
keys: the table has eight slots (no resize below six entries) and
iteration walks the slots in ascending index, each key sitting at its hash
modulo eight. Valid when the keys occupy pairwise distinct slots, so no
collision probing occurs; the order is then independent of the insertion
order, hence of the order the document declares the keys in. -/
def dictOrder8 (keys : List String) : List String :=
  (List.range 8).flatMap (fun s => keys.filter (fun k => pyHash2 k % 8 = s))

example : validateDoc [("bogus_option", Value.l [])] =
    some (JdError.unknownOption "bogus_option") := by decide

example : validateDoc [("junit_patterns", Value.l [Value.s "a.xml"])] = none := by decide

example : validateDoc [("planet-earth:junit_patterns", Value.s "x")] =
    some (JdError.typeMismatch "junit_patterns" VKind.str VKind.list) := by decide

example : CreateMatrixRows [("planet", ["earth", "mars"]), ("moon", ["europa", "ganymede"])] =
    [⟨[("planet", ["earth"]), ("moon", ["europa"])]⟩,
     ⟨[("planet", ["earth"]), ("moon", ["ganymede"])]⟩,
     ⟨[("planet", ["mars"]), ("moon", ["europa"])]⟩,
     ⟨[("planet", ["mars"]), ("moon", ["ganymede"])]⟩] := by decide

example : (MatrixRow.init ["slave"] ["windows8,dist-12.0"]).dict =
    [("slave", ["windows8", "dist-12.0"])] := by decide

example : (MatrixRow.init ["slave"] ["windows8,dist-12.0"]).AsDict =
    [("slave", "windows8")] := by decide

example : MatrixRow.Match ⟨[("slave", ["windows8", "dist-12.0"])]⟩ ["slave-dist-12.0"] =
    none := by decide

example : MatrixRow.Match ⟨[("planet", ["earth"])]⟩ ["planet-earth"] = some true := by decide

example : MatrixRow.Match ⟨[("planet", ["earth"])]⟩ ["planet-mars"] = some false := by decide

/-- The default branch pattern matches every branch. -/
theorem reMatch_dotStar (t : List Char) : reMatch ['.', '*'] t = true := by
  induction t with
  | nil => simp [reMatch]
  | cons c ts ih => rw [reMatch]; simp [ih]

example : reMatch "release-.*".data "release-1.0".data = true := by
  simp [reMatch]

example : reMatch "release-.*".data "milky_way".data = false := by
  simp [reMatch]

example : reMatch "master".data "master-something".data = true := by
  simp [reMatch]

example : pyFormat [("planet", "earth"), ("branch", "milky_way")]
    "\x7bplanet\x7d-\x7bbranch\x7d.xml" = some "earth-milky_way.xml" := by
  simp [pyFormat, pyFormatAux, lookupChars, afterField, fieldName]

example : pyFormat [("planet", "earth")] "\x7bmoon\x7d.xml" = none := by
  simp [pyFormat, pyFormatAux, lookupChars, afterField, fieldName]

example : pyFormat [] "a\x7b\x7bb\x7d\x7d" = some "a\x7bb\x7d" := by
  simp [pyFormat, pyFormatAux, lookupChars, afterField, fieldName]

/-- Rebuilding a string from its characters is the identity. -/
theorem string_mk_data (s : String) : String.mk s.data = s := rfl

/-- lookupChars agrees with List.lookup on the corresponding string. -/
theorem lookupChars_eq_lookup (ctx : List (String × String)) (t : String) :
    lookupChars ctx t.data = ctx.lookup t := by
  induction ctx with
  | nil => rfl
  | cons p rest ih =>
    obtain ⟨k, v⟩ := p
    simp only [lookupChars, List.lookup]
    by_cases h : k = t
    · subst h
      simp
    · have hd : ¬ k.data = t.data := fun hc => h (String.ext hc)
      have hb : (t == k) = false := by
        simpa using fun hc => h hc.symm
      simp [hd, hb, ih]

/-- The number of Cartesian combinations is the product of the list sizes. -/
theorem itProduct_length (vs : List (List String)) :
    (itProduct vs).length = (vs.map List.length).prod := by
  induction vs with
  | nil => rfl
  | cons v rest ih =>
    simp only [itProduct, List.map_cons, List.prod_cons]
    induction v with
    | nil => simp
    | cons x v2 ihv =>
      simp only [List.flatMap_cons, List.length_append, List.length_map, ih] at *
      rw [ihv, List.length_cons]
      ring

/-- itProduct enumerates the combinations in exactly the lexicographic
Cartesian-product order. -/
theorem itProduct_getElem (vs : List (List String)) :
    ∀ i, i < (vs.map List.length).prod →
      (itProduct vs)[i]? = some (lexCartesianNth vs i) := by
  induction vs with
  | nil =>
    intro i hi
    simp only [List.map_nil, List.prod_nil, Nat.lt_one_iff] at hi
    subst hi
    rfl
  | cons v rest ih =>
    induction v with
    | nil =>
      intro i hi
      simp at hi
    | cons x v2 ihv =>
      intro i hi
      simp only [List.map_cons, List.prod_cons, List.length_cons] at hi
      have hP : 0 < (rest.map List.length).prod := by
        rcases Nat.eq_zero_or_pos (rest.map List.length).prod with h0 | h0
        · rw [h0, Nat.mul_zero] at hi
          exact absurd hi (Nat.not_lt_zero i)
        · exact h0
      have hlen : ((itProduct rest).map (fun t => x :: t)).length =
          (rest.map List.length).prod := by
        rw [List.length_map, itProduct_length]
      by_cases hiP : i < (rest.map List.length).prod
      · simp only [itProduct, List.flatMap_cons]
        rw [List.getElem?_append_left (by rw [hlen]; exact hiP)]
        simp only [List.getElem?_map, ih i hiP, Option.map_some]
        simp only [lexCartesianNth, List.map_cons, List.prod_cons]
        rw [Nat.div_eq_of_lt hiP, Nat.mod_eq_of_lt hiP]
        simp
      · push_neg at hiP
        simp only [itProduct, List.flatMap_cons]
        rw [List.getElem?_append_right (by rw [hlen]; exact hiP)]
        rw [hlen]
        have hi2 : i - (rest.map List.length).prod < v2.length * (rest.map List.length).prod := by
          rw [Nat.succ_mul] at hi
          omega
        have hrec := ihv (i - (rest.map List.length).prod)
          (by simp only [List.map_cons, List.prod_cons]; exact hi2)
        simp only [itProduct, List.flatMap_cons] at hrec ⊢
        rw [hrec]
        simp only [lexCartesianNth, List.map_cons, List.prod_cons]
        rw [Nat.div_eq_sub_div hP hiP, Nat.mod_eq_sub_mod hiP]
        simp

/-- C1: for every matrix whose variables have value lists of sizes n1..nk,
CreateMatrixRows returns exactly n1 * ... * nk rows, and for the empty
matrix (no variables) it returns exactly one row with empty bindings. -/
theorem c1_matrix_row_count :
    (∀ matrix_dict : List (String × List String),
      (CreateMatrixRows matrix_dict).length =
        (matrix_dict.map (fun p => p.2.length)).prod) ∧
    CreateMatrixRows [] = [⟨[]⟩] := by
  constructor
  · intro m
    simp only [CreateMatrixRows, List.length_map, itProduct_length, List.map_map]
    rfl
  · rfl

example : pyHash2 "a" = 12416037344 := by decide

example : (pyHash2 "planet" % 8, pyHash2 "moon" % 8) = (0, 7) := by decide

example : (pyHash2 "junit_patterns" % 8, pyHash2 "moon-europa:junit_patterns" % 8) =
    (4, 0) := by decide

/-- C5: code bug. The claim asserts rows in the lexicographic order induced
by the declared variable order, and the docstring of the source (lines
85-89) enumerates the matrix_row values in that declared order, but the
source iterates the matrix through a CPython 2 dict. The variables planet
(hash slot 0) and moon (hash slot 7) are enumerated planet first whichever
of the two orders the document declares them in (first two conjuncts); the
row sequence the code computes at the planet-first enumeration varies moon
fastest, while the sequence the claim requires for the matrix declaring
moon first varies planet fastest (last three conjuncts), so the code
cannot return the declared-order sequence for that input. -/
theorem c5_row_order_code_bug :
    dictOrder8 ["moon", "planet"] = ["planet", "moon"] ∧
    dictOrder8 ["planet", "moon"] = ["planet", "moon"] ∧
    (CreateMatrixRows [("planet", ["earth", "mars"]), ("moon", ["europa", "ganymede"])]).map
        (fun r => (r.AsDict.lookup "moon", r.AsDict.lookup "planet")) =
      [(some "europa", some "earth"), (some "ganymede", some "earth"),
       (some "europa", some "mars"), (some "ganymede", some "mars")] ∧
    (CreateMatrixRows [("moon", ["europa", "ganymede"]), ("planet", ["earth", "mars"])]).map
        (fun r => (r.AsDict.lookup "moon", r.AsDict.lookup "planet")) =
      [(some "europa", some "earth"), (some "europa", some "mars"),
       (some "ganymede", some "earth"), (some "ganymede", some "mars")] ∧
    (CreateMatrixRows [("planet", ["earth", "mars"]), ("moon", ["europa", "ganymede"])]).map
        (fun r => (r.AsDict.lookup "moon", r.AsDict.lookup "planet")) ≠
      (CreateMatrixRows [("moon", ["europa", "ganymede"]), ("planet", ["earth", "mars"])]).map
        (fun r => (r.AsDict.lookup "moon", r.AsDict.lookup "planet")) := by
  refine ⟨by decide, by decide, rfl, rfl, by decide⟩

/-- C2: an empty or absent document (the text parses to no mapping at all,
defaulted to the empty mapping at line 160, or to an empty mapping) yields
exactly one job per matrix row; with no matrix that is a single job, with
the repository attached, an empty effective-binding snapshot, and every
option field empty, rather than zero jobs. -/
theorem c2_empty_document (repository : Repository) :
    CreateFromYAML (some none) repository =
      .ok [{ repository := some repository, matrix_row := some [],
             options := fun _ => none }] ∧
    CreateFromYAML (some (some [])) repository =
      .ok [{ repository := some repository, matrix_row := some [],
             options := fun _ => none }] := by
  have key : ∀ parsed : Option Doc, parsed.getD [] = [] →
      CreateFromYAML (some parsed) repository =
        .ok [{ repository := some repository, matrix_row := some [],
               options := fun _ => none }] := by
    intro parsed hp
    have hmatch : reMatch ".*".data repository.branch.data = true := reMatch_dotStar _
    simp only [CreateFromYAML, hp, validateDoc, getBranchPatterns, List.lookup_nil,
      patternMatches, Except.map, List.any_cons, List.any_nil, id, hmatch,
      Bool.or_false, if_true, assembleJobs, Option.getD_none, matrixOfValue,
      List.mapM_nil, CreateMatrixRows, itProduct, List.map_nil, List.flatMap_nil,
      List.map_cons, MatrixRow.init, List.mapM_cons, buildJob, List.isEmpty_nil,
      MatrixRow.AsDict, List.zip_nil_left]
    rfl
  exact ⟨key none rfl, key (some []) rfl⟩

/-- Folding any over a mapped Boolean list. -/
theorem any_id_map (f : String → Bool) (ps : List String) :
    (ps.map f).any id = ps.any f := by
  induction ps with
  | nil => rfl
  | cons p rest ih => simp [ih]

/-- re.match over a list of loaded string patterns. -/
theorem patternMatches_map_s (branch : String) (ps : List String) :
    patternMatches branch (ps.map Value.s) =
      .ok (ps.map (fun p => reMatch p.data branch.data)) := by
  induction ps with
  | nil => rfl
  | cons p rest ih => simp [patternMatches, ih, Except.map]

/-- C3: with a validated document whose branch_patterns entries are the
string patterns ps (the default being the single match-anything pattern
when the document omits branch_patterns), CreateFromYAML proceeds to job
assembly exactly when at least one pattern prefix-matches the repository
branch, and otherwise returns the empty job list rather than failing;
when branch_patterns is omitted the default pattern accepts every branch. -/
theorem c3_branch_filter (D : Doc) (R : Repository) (ps : List String)
    (hval : validateDoc D = none)
    (hps : getBranchPatterns D = ps.map Value.s) :
    (CreateFromYAML (some (some D)) R =
      if ps.any (fun p => reMatch p.data R.branch.data) then assembleJobs D R
      else .ok []) ∧
    (D.lookup "branch_patterns" = none →
      ps.any (fun p => reMatch p.data R.branch.data) = true) := by
  constructor
  · simp only [CreateFromYAML, Option.getD_some, hval, hps, patternMatches_map_s]
    rw [any_id_map]
  · intro hnone
    simp only [getBranchPatterns, hnone] at hps
    cases ps with
    | nil => simp at hps
    | cons p ps2 =>
      simp only [List.map_cons, List.cons.injEq, Value.s.injEq] at hps
      obtain ⟨hp, hps2⟩ := hps
      cases ps2 with
      | cons q qs => simp at hps2
      | nil =>
        subst hp
        show reMatch ['.', '*'] R.branch.data || false = true
        rw [reMatch_dotStar]
        rfl

/-- C3 witness: a document whose branch_patterns list is empty matches no
branch, and CreateFromYAML returns the empty job list. -/
theorem c3_branch_filter_witness :
    CreateFromYAML (some (some [("branch_patterns", Value.l [])]))
      { url := "u", name := "n", branch := "milky_way" } = .ok [] := by
  have h := (c3_branch_filter [("branch_patterns", Value.l [])]
    { url := "u", name := "n", branch := "milky_way" } [] (by decide) rfl).1
  simpa using h

/-- Splitting never yields the empty group list. -/
theorem splitOnChar_ne_nil (sep : Char) (l : List Char) : splitOnChar sep l ≠ [] := by
  cases l with
  | nil => simp [splitOnChar]
  | cons c rest =>
    simp only [splitOnChar]
    match h : splitOnChar sep rest with
    | [] => simp
    | g :: gs =>
      by_cases hc : c = sep <;> simp [hc]

/-- A split with a single group is the whole input. -/
theorem splitOnChar_singleton (sep : Char) (l : List Char) (g : List Char)
    (h : splitOnChar sep l = [g]) : g = l := by
  induction l generalizing g with
  | nil =>
    simp only [splitOnChar, List.cons.injEq] at h
    exact h.1.symm
  | cons c rest ih =>
    simp only [splitOnChar] at h
    match hs : splitOnChar sep rest with
    | [] => exact absurd hs (splitOnChar_ne_nil sep rest)
    | g2 :: gs =>
      rw [hs] at h
      by_cases hc : c = sep
      · simp [hc] at h
      · simp only [if_neg hc, List.cons.injEq] at h
        obtain ⟨hg, hgs⟩ := h
        subst hgs
        have := ih g2 hs
        subst this
        exact hg.symm

/-- A key without a separator splits into the single group holding the
whole key. -/
theorem pySplit_of_not_gt_one (k : String) (h : ¬ (pySplit ':' k).length > 1) :
    pySplit ':' k = [k] := by
  have hne : splitOnChar ':' k.data ≠ [] := splitOnChar_ne_nil ':' k.data
  match hs : splitOnChar ':' k.data with
  | [] => exact absurd hs hne
  | [g] =>
    have hg := splitOnChar_singleton ':' k.data g hs
    subst hg
    simp [pySplit, hs, string_mk_data]
  | g1 :: g2 :: gs =>
    exfalso
    apply h
    simp [pySplit, hs]

/-- Folding all over a mapped Boolean list. -/
theorem all_id_map (f : String → Bool) (ps : List String) :
    (ps.map f).all id = ps.all f := by
  induction ps with
  | nil => rfl
  | cons p rest ih => simp [ih]

/-- A key that applies to the row turns into one option assignment. -/
theorem applyFormattedOptions_cons_applies (row : MatrixRow) (k : String) (v : Value)
    (rest : List (String × Value)) (job : JobsDoneJob)
    (h : keyApplies row k = some true) :
    applyFormattedOptions row ((k, v) :: rest) job =
      applyFormattedOptions row rest (applyOption job (appliedName k) v) := by
  by_cases hlen : (pySplit ':' k).length > 1
  · unfold keyApplies at h
    rw [if_pos hlen] at h
    simp only [applyFormattedOptions, if_pos hlen, h]
    rfl
  · have hk : appliedName k = k := by
      simp [appliedName, pySplit_of_not_gt_one k hlen]
    simp only [applyFormattedOptions, if_neg hlen, hk]

/-- A key whose conditions the row does not satisfy is skipped. -/
theorem applyFormattedOptions_cons_skips (row : MatrixRow) (k : String) (v : Value)
    (rest : List (String × Value)) (job : JobsDoneJob)
    (h : keyApplies row k = some false) :
    applyFormattedOptions row ((k, v) :: rest) job =
      applyFormattedOptions row rest job := by
  by_cases hlen : (pySplit ':' k).length > 1
  · unfold keyApplies at h
    rw [if_pos hlen] at h
    simp only [applyFormattedOptions, if_pos hlen, h]
  · unfold keyApplies at h
    rw [if_neg hlen] at h
    exact absurd h (by simp)

/-- C4: for every matrix row and conditioned option key, the option named
by the last segment is set on the job of the row exactly when every condition
token matches the row, where a token name-value matches when value appears
among the retained comma-separated sub-values of the row for name; a key
carrying no condition tokens always applies. -/
theorem c4_conditioned_options (row : MatrixRow) (k : String) (v : Value)
    (job : JobsDoneJob) (conds : List String) (name : String)
    (hsplit : pySplit ':' k = conds ++ [name]) :
    (conds = [] →
      applyFormattedOptions row [(k, v)] job = .ok (applyOption job name v)) ∧
    (∀ b, row.Match conds = some b →
      applyFormattedOptions row [(k, v)] job =
        .ok (if b then applyOption job name v else job)) ∧
    (∀ c n val vs, condSplit c = some (n, val) → row.dict.lookup n = some vs →
      row.MatchCond c = some (vs.contains val)) ∧
    (∀ (cs : List String) (f : String → Bool),
      (∀ c ∈ cs, row.MatchCond c = some (f c)) →
      row.Match cs = some (cs.all f)) := by
  have hsingle : conds = [] →
      applyFormattedOptions row [(k, v)] job = .ok (applyOption job name v) := by
    intro h0
    subst h0
    simp only [List.nil_append] at hsplit
    have happ : keyApplies row k = some true := by
      unfold keyApplies
      rw [if_neg (by rw [hsplit]; simp)]
    rw [applyFormattedOptions_cons_applies row k v [] job happ]
    have hname : appliedName k = name := by
      unfold appliedName
      rw [hsplit]
      rfl
    rw [hname]
    rfl
  refine ⟨hsingle, fun b hM => ?_, fun c n val vs h1 h2 => ?_, fun cs f h => ?_⟩
  · by_cases hc : conds = []
    · subst hc
      have hb : b = true := by
        have h0 : row.Match ([] : List String) = some true := rfl
        rw [h0] at hM
        exact (Option.some.inj hM).symm
      subst hb
      simpa using hsingle rfl
    · have hlen : (pySplit ':' k).length > 1 := by
        rw [hsplit]
        simp only [List.length_append, List.length_cons, List.length_nil]
        have := List.length_pos.mpr hc
        omega
      have hkeyApp : keyApplies row k = some b := by
        unfold keyApplies
        rw [if_pos hlen, hsplit, List.dropLast_concat]
        exact hM
      have hname : appliedName k = name := by
        unfold appliedName
        rw [hsplit, List.getLastD_concat]
      cases b
      · rw [applyFormattedOptions_cons_skips row k v [] job hkeyApp]
        rfl
      · rw [applyFormattedOptions_cons_applies row k v [] job hkeyApp, hname]
        rfl
  · simp [MatrixRow.MatchCond, h1, h2]
  · have hres : condResults row cs = some (cs.map f) := by
      induction cs with
      | nil => rfl
      | cons c cs2 ih =>
        have hc := h c (by simp)
        have ih2 := ih (fun c2 hc2 => h c2 (by simp [hc2]))
        simp [condResults, hc, ih2]
    unfold MatrixRow.Match
    rw [hres]
    show some ((cs.map f).all id) = some (cs.all f)
    rw [all_id_map]

/-- C4 witness: with the matrix row binding planet to earth, the
conditioned key of spec example 5 applies and sets junit_patterns. -/
theorem c4_conditioned_options_witness :
    applyFormattedOptions ⟨[("planet", ["earth"])]⟩
      [("planet-earth:junit_patterns", Value.l [Value.s "x.xml"])] emptyJob =
      .ok (applyOption emptyJob "junit_patterns" (Value.l [Value.s "x.xml"])) := by
  have h := (c4_conditioned_options ⟨[("planet", ["earth"])]⟩
    "planet-earth:junit_patterns" (Value.l [Value.s "x.xml"]) emptyJob
    ["planet-earth"] "junit_patterns" (by decide)).2.1 true (by decide)
  simpa using h

/-- C9: code bug. The claim asserts that when two applying keys resolve to
the same real option name the later-in-document value wins, but the option
loop of line 205 iterates the reloaded mapping through a CPython 2 dict.
The keys junit_patterns (hash slot 4) and moon-europa:junit_patterns (hash
slot 0) are enumerated conditioned-key first whichever order the document
declares them in (first two conjuncts); the setattr loop applies the key
enumerated last, so at the fixed enumeration the plain key wins (third
conjunct) while the reversed enumeration would make the conditioned key
win (fourth conjunct): for the document declaring the conditioned key
after the plain one the claimed winner is the conditioned value, but the
code produces the plain value. -/
theorem c9_last_write_code_bug :
    dictOrder8 ["junit_patterns", "moon-europa:junit_patterns"] =
      ["moon-europa:junit_patterns", "junit_patterns"] ∧
    dictOrder8 ["moon-europa:junit_patterns", "junit_patterns"] =
      ["moon-europa:junit_patterns", "junit_patterns"] ∧
    (applyFormattedOptions ⟨[("moon", ["europa"])]⟩
        [("moon-europa:junit_patterns", Value.s "b"), ("junit_patterns", Value.s "a")]
        emptyJob).map (fun j => j.options "junit_patterns") =
      .ok (some (Value.s "a")) ∧
    (applyFormattedOptions ⟨[("moon", ["europa"])]⟩
        [("junit_patterns", Value.s "a"), ("moon-europa:junit_patterns", Value.s "b")]
        emptyJob).map (fun j => j.options "junit_patterns") =
      .ok (some (Value.s "b")) := by
  refine ⟨by decide, by decide, rfl, rfl⟩

/-- The setattr mechanics of the loop: among entries of its argument list
that apply and resolve to the same option name, the last one assigned
wins. This holds for whatever enumeration order the list carries; it
composes with the enumeration evidence of c9_last_write_code_bug. -/
theorem applyFormattedOptions_last_assignment (row : MatrixRow) (k1 k2 : String)
    (v1 v2 : Value) (job : JobsDoneJob) (name : String)
    (h1 : appliedName k1 = name) (h2 : appliedName k2 = name)
    (ha1 : keyApplies row k1 = some true) (ha2 : keyApplies row k2 = some true) :
    applyFormattedOptions row [(k1, v1), (k2, v2)] job =
      .ok (applyOption (applyOption job name v1) name v2) ∧
    (applyOption (applyOption job name v1) name v2).options name = some v2 := by
  constructor
  · rw [applyFormattedOptions_cons_applies row k1 v1 _ job ha1,
      applyFormattedOptions_cons_applies row k2 v2 _ _ ha2, h1, h2]
    rfl
  · simp [applyOption]

/-- Looking up in the effective-binding snapshot takes the first sub-value
of the retained list. -/
theorem lookup_map_headD (d : List (String × List String)) (v : String) :
    (d.map (fun p => (p.1, p.2.headD ""))).lookup v =
      (d.lookup v).map (fun vs => vs.headD "") := by
  induction d with
  | nil => rfl
  | cons p rest ih =>
    obtain ⟨n, vs⟩ := p
    simp only [List.map_cons, List.lookup]
    cases hb : (v == n) with
    | false => simp only [hb]; exact ih
    | true => simp only [hb]; rfl

/-- MatrixRow.AsDict keeps every binding, each at its first sub-value. -/
theorem AsDict_lookup (r : MatrixRow) (v : String) :
    r.AsDict.lookup v = (r.dict.lookup v).map (fun vs => vs.headD "") := by
  unfold MatrixRow.AsDict
  exact lookup_map_headD r.dict v

/-- A key found in the front part of an appended association list. -/
theorem lookup_append_some {l1 l2 : List (String × String)} {k v : String}
    (h : l1.lookup k = some v) : (l1 ++ l2).lookup k = some v := by
  induction l1 with
  | nil => simp [List.lookup] at h
  | cons p rest ih =>
    obtain ⟨a, b⟩ := p
    simp only [List.lookup, List.cons_append] at h ⊢
    cases hb : (k == a) with
    | false => simp only [hb] at h ⊢; exact ih h
    | true => simp only [hb] at h ⊢; exact h

/-- A key absent from the front part falls through to the back part. -/
theorem lookup_append_none {l1 l2 : List (String × String)} {k : String}
    (h : l1.lookup k = none) : (l1 ++ l2).lookup k = l2.lookup k := by
  induction l1 with
  | nil => rfl
  | cons p rest ih =>
    obtain ⟨a, b⟩ := p
    simp only [List.lookup, List.cons_append] at h ⊢
    cases hb : (k == a) with
    | false => simp only [hb] at h ⊢; exact ih h
    | true => simp only [hb] at h; simp at h

/-- fieldName stops exactly at the first closing brace. -/
theorem fieldName_no_close (l r : List Char) (h : ∀ c ∈ l, c ≠ '}') :
    fieldName (l ++ '}' :: r) = l := by
  induction l with
  | nil => simp [fieldName]
  | cons c rest ih =>
    have hc := h c (by simp)
    simp [fieldName, hc, ih (fun c2 hc2 => h c2 (by simp [hc2]))]

/-- afterField returns the remainder from the first closing brace on. -/
theorem afterField_no_close (l r : List Char) (h : ∀ c ∈ l, c ≠ '}') :
    afterField (l ++ '}' :: r) = '}' :: r := by
  induction l with
  | nil => simp [afterField]
  | cons c rest ih =>
    have hc := h c (by simp)
    simp [afterField, hc, ih (fun c2 hc2 => h c2 (by simp [hc2]))]

/-- C6: template resolution substitutes placeholders in string scalars
using the context formed by the effective bindings of the row, where each
variable is bound to the first comma-separated sub-value of its retained
list, together with the special tokens branch and name taken from the
repository (which row bindings would shadow on collision, per
dict.update): any variable bound in the row resolves to its first
sub-value, the special tokens resolve to the repository fields when not
shadowed, string scalars are resolved through str.format, and a pure
brace-delimited token is replaced by exactly its context value. -/
theorem c6_template_context (repository : Repository) (row : MatrixRow) :
    (∀ var vs, row.dict.lookup var = some vs →
      (formatContext repository row).lookup var = some (vs.headD "")) ∧
    (row.dict.lookup "branch" = none →
      (formatContext repository row).lookup "branch" = some repository.branch) ∧
    (row.dict.lookup "name" = none →
      (formatContext repository row).lookup "name" = some repository.name) ∧
    (∀ ctx s, formatValue ctx (Value.s s) = (pyFormat ctx s).map Value.s) ∧
    (∀ (ctx : List (String × String)) (t : String),
      (∀ c ∈ t.data, c ≠ '{' ∧ c ≠ '}') →
      pyFormat ctx ("\x7b" ++ t ++ "\x7d") = ctx.lookup t) := by
  refine ⟨fun var vs h => ?_, fun h => ?_, fun h => ?_, fun ctx s => rfl,
    fun ctx t hT => ?_⟩
  · unfold formatContext
    apply lookup_append_some
    rw [AsDict_lookup, h]
    rfl
  · unfold formatContext
    rw [lookup_append_none (by rw [AsDict_lookup, h]; rfl)]
    simp [List.lookup]
  · unfold formatContext
    rw [lookup_append_none (by rw [AsDict_lookup, h]; rfl)]
    simp [List.lookup]
  · have hdata : ("\x7b" ++ t ++ "\x7d").data = '{' :: (t.data ++ ['}']) := rfl
    unfold pyFormat
    rw [hdata, ← lookupChars_eq_lookup]
    cases ht : t.data with
    | nil =>
      cases hlc : lookupChars ctx [] with
      | none => simp [pyFormatAux, afterField, fieldName, hlc]
      | some v0 => simp [pyFormatAux, afterField, fieldName, hlc, string_mk_data]
    | cons c0 cs =>
      have hc0 : c0 ≠ '{' ∧ c0 ≠ '}' := hT c0 (by rw [ht]; simp)
      have hall : ∀ c ∈ c0 :: cs, c ≠ '}' := by
        intro c hc
        rcases List.mem_cons.mp hc with h1 | h1
        · subst h1; exact hc0.2
        · exact (hT c (by rw [ht]; simp [h1])).2
      have haf : afterField (c0 :: (cs ++ ['}'])) = ['}'] := by
        simpa using afterField_no_close (c0 :: cs) [] hall
      have hfn : fieldName (c0 :: (cs ++ ['}'])) = c0 :: cs := by
        simpa using fieldName_no_close (c0 :: cs) [] hall
      rw [pyFormatAux.eq_def]
      dsimp only [List.cons_append]
      rw [if_pos rfl, if_neg (by simpa using hc0.1)]
      split
      · rename_i rest2 heq
        have h2 : ('}' :: rest2 : List Char) = ['}'] := heq.symm.trans haf
        have h3 : rest2 = [] := by
          injection h2
        subst h3
        rw [hfn]
        cases hlc : lookupChars ctx (c0 :: cs) with
        | none => rfl
        | some v0 => simp [pyFormatAux, string_mk_data]
      · rename_i hno
        exact absurd haf (hno [])

/-- C6 witness: with the example repository and the row binding planet to
the sub-values earth and mars, the context binds planet to earth and
branch to the repository branch, and a planet placeholder resolves to the
context value. -/
theorem c6_template_context_witness :
    (formatContext { url := "http://space.git", name := "space", branch := "milky_way" }
      ⟨[("planet", ["earth", "mars"])]⟩).lookup "planet" = some "earth" ∧
    (formatContext { url := "http://space.git", name := "space", branch := "milky_way" }
      ⟨[("planet", ["earth", "mars"])]⟩).lookup "branch" = some "milky_way" ∧
    pyFormat [("planet", "earth")] "\x7bplanet\x7d" = some "earth" :=
  ⟨(c6_template_context { url := "http://space.git", name := "space", branch := "milky_way" }
      ⟨[("planet", ["earth", "mars"])]⟩).1 "planet" ["earth", "mars"] (by decide),
   (c6_template_context { url := "http://space.git", name := "space", branch := "milky_way" }
      ⟨[("planet", ["earth", "mars"])]⟩).2.1 (by decide),
   (c6_template_context { url := "http://space.git", name := "space", branch := "milky_way" }
      ⟨[("planet", ["earth", "mars"])]⟩).2.2.2.2 [("planet", "earth")] "planet" (by decide)⟩

/-- C8: validation fails with the unknown-option error naming the stripped
key on any document whose first entry has a stripped key outside the fixed
option table, and with the type-mismatch error naming the key, the
obtained and the expected shape when the first entry has a known name but
a wrong container shape; the shape check depends only on the outer
container kind of the value, never on its content; any offending entry
anywhere in the document makes validation fail; a validation error aborts
CreateFromYAML with exactly that error; and the unknown-option message
enumerates exactly the option names of the table in sorted order. -/
theorem c8_schema_validation :
    (∀ (k : String) (v : Value) (rest : Doc),
      PARSEABLE_OPTIONS.lookup (stripConditions k) = none →
      validateDoc ((k, v) :: rest) =
        some (JdError.unknownOption (stripConditions k))) ∧
    (∀ (k : String) (v : Value) (rest : Doc) (expected : VKind),
      PARSEABLE_OPTIONS.lookup (stripConditions k) = some expected →
      v.kind ≠ expected →
      validateDoc ((k, v) :: rest) =
        some (JdError.typeMismatch (stripConditions k) v.kind expected)) ∧
    (∀ (k : String) (v v2 : Value), v.kind = v2.kind →
      validateEntry k v = validateEntry k v2) ∧
    (∀ (D : Doc) (k : String) (v : Value), (k, v) ∈ D →
      validateEntry k v ≠ none → validateDoc D ≠ none) ∧
    (∀ (D : Doc) (R : Repository) (e : JdError), validateDoc D = some e →
      CreateFromYAML (some (some D)) R = .error e) ∧
    availableOptionNames.Sorted (fun a b => a ≤ b) ∧
    availableOptionNames.Perm (PARSEABLE_OPTIONS.map (fun p => p.1)) ∧
    (∀ name, unknownOptionMessage name =
      "Received unknown option \"" ++ name ++ "\".\n\nAvailable options are:\n" ++
        String.intercalate "\n" (availableOptionNames.map (fun o => "- " ++ o))) := by
  refine ⟨fun k v rest h => ?_, fun k v rest expected h1 h2 => ?_,
    fun k v v2 h => ?_, fun D k v hmem hne => ?_, fun D R e h => ?_,
    List.sorted_insertionSort _ _, List.perm_insertionSort _ _, fun name => rfl⟩
  · simp [validateDoc, validateEntry, h]
  · simp [validateDoc, validateEntry, h1, h2]
  · simp only [validateEntry, h]
  · induction D with
    | nil => simp at hmem
    | cons p rest ih =>
      simp only [validateDoc]
      cases hv : validateEntry p.1 p.2 with
      | some e => simp
      | none =>
        rcases List.mem_cons.mp hmem with h1 | h1
        · exfalso
          apply hne
          rw [← hv, ← h1]
        · simpa using ih h1
  · simp [CreateFromYAML, h]

/-- C8 witness: spec example 4, a document with the key bogus_option. -/
theorem c8_schema_validation_witness :
    validateDoc [("bogus_option", Value.l [Value.s "1"])] =
      some (JdError.unknownOption "bogus_option") :=
  c8_schema_validation.1 "bogus_option" (Value.l [Value.s "1"]) [] (by decide)

/-- C10: the reset method is invoked exactly once per Configure call, no
matter how many forwardable options are non-empty, zero included, and
whether or not forwarding fails on an unexposed capability method. -/
theorem c10_reset_exactly_once (gen : Generator) (job : JobsDoneJob) :
    countResets (Configure gen job).1 = 1 := by
  have h : ∀ opts : List (String × VKind),
      countResets (forwardOptions gen job opts).1 = 0 := by
    intro opts
    induction opts with
    | nil => rfl
    | cons p rest ih =>
      obtain ⟨opt, kind⟩ := p
      cases hjo : job.options opt with
      | none =>
        simp only [forwardOptions, hjo]
        exact ih
      | some v =>
        simp only [forwardOptions, hjo]
        by_cases hm : gen.methods.contains (deriveMethodName opt)
        · simp only [if_pos hm, countResets]
          exact ih
        · simp only [if_neg hm, countResets]
  simp only [Configure, countResets]
  rw [h]

